import Mathlib

/-!
Formal model of the `easycal` ICS helper module (`src/helper.py`).

The module has three layers:
* a datetime normalization helper `_parse_dt_string`,
* a line-oriented ICS parser `parse_ics_to_raw` / `parse_rrule_to_raw`,
* a recurrence evaluator `is_event_on_date` / `expand_event_occurrences`,
plus a file loader `load_and_parse_calendar`.

Python `datetime` values are modelled as records of naturals; Python dicts of
optional event fields are modelled as a record of `Option` fields; functions
that can raise are modelled with `Except PyExc`; the proleptic Gregorian
ordinal (`date.toordinal`) and `weekday()` (Monday = 0) are modelled by
explicit arithmetic.  String manipulation (`splitlines`, `strip`, `split`)
is modelled on the character lists underlying `String`.
-/

namespace EasyCal

/-! ### Dates and times (model of `datetime.date` / `time` / `datetime`) -/

structure Time where
  hour : Nat
  minute : Nat
  second : Nat
deriving DecidableEq

structure Date where
  year : Nat
  month : Nat
  day : Nat
deriving DecidableEq

structure DateTime where
  year : Nat
  month : Nat
  day : Nat
  hour : Nat
  minute : Nat
  second : Nat
deriving DecidableEq

def DateTime.dateOf (dt : DateTime) : Date := ⟨dt.year, dt.month, dt.day⟩

def DateTime.timeOf (dt : DateTime) : Time := ⟨dt.hour, dt.minute, dt.second⟩

/-- model of `datetime.datetime.combine(date, time)` -/
def combine (d : Date) (t : Time) : DateTime :=
  ⟨d.year, d.month, d.day, t.hour, t.minute, t.second⟩

/-- Gregorian leap-year test, as in `calendar.isleap` / CPython `_is_leap`. -/
def isLeap (y : Nat) : Bool :=
  y % 4 == 0 && (y % 100 != 0 || y % 400 == 0)

/-- days in a month, as in CPython `_days_in_month`. -/
def daysInMonth (y m : Nat) : Nat :=
  match m with
  | 1 => 31
  | 2 => if isLeap y then 29 else 28
  | 3 => 31
  | 4 => 30
  | 5 => 31
  | 6 => 30
  | 7 => 31
  | 8 => 31
  | 9 => 30
  | 10 => 31
  | 11 => 30
  | 12 => 31
  | _ => 0

/-- days in the year before month `m`, as in CPython `_days_before_month`. -/
def daysBeforeMonth (y m : Nat) : Nat :=
  (match m with
   | 1 => 0
   | 2 => 31
   | 3 => 59
   | 4 => 90
   | 5 => 120
   | 6 => 151
   | 7 => 181
   | 8 => 212
   | 9 => 243
   | 10 => 273
   | 11 => 304
   | _ => 334) + (if 3 ≤ m && isLeap y then 1 else 0)

/-- days before January 1 of year `y`, as in CPython `_days_before_year`. -/
def daysBeforeYear (y : Nat) : Nat :=
  365 * (y - 1) + (y - 1) / 4 - (y - 1) / 100 + (y - 1) / 400

/-- model of `datetime.date.toordinal` (0001-01-01 is ordinal 1). -/
def Date.toOrdinal (d : Date) : Nat :=
  daysBeforeYear d.year + daysBeforeMonth d.year d.month + d.day

/-- model of `datetime.date.weekday` (Monday = 0 .. Sunday = 6);
0001-01-01, ordinal 1, is a Monday. -/
def Date.weekday (d : Date) : Nat := (d.toOrdinal + 6) % 7

def DateTime.weekday (dt : DateTime) : Nat := dt.dateOf.weekday

/-- the values representable as a Python `datetime.date`. -/
def Date.isValid (d : Date) : Prop :=
  1 ≤ d.year ∧ d.year ≤ 9999 ∧ 1 ≤ d.month ∧ d.month ≤ 12 ∧
    1 ≤ d.day ∧ d.day ≤ daysInMonth d.year d.month

instance (d : Date) : Decidable d.isValid := by
  unfold Date.isValid; infer_instance

def Time.isValid (t : Time) : Prop :=
  t.hour ≤ 23 ∧ t.minute ≤ 59 ∧ t.second ≤ 59

instance (t : Time) : Decidable t.isValid := by
  unfold Time.isValid; infer_instance

def DateTime.isValid (dt : DateTime) : Prop :=
  dt.dateOf.isValid ∧ dt.timeOf.isValid

instance (dt : DateTime) : Decidable dt.isValid := by
  unfold DateTime.isValid; infer_instance

/-- `datetime.date.max`, i.e. 9999-12-31: adding one day to it raises
`OverflowError` in Python. -/
def dateMax : Date := ⟨9999, 12, 31⟩

/-- the calendar successor of a date
(model of `date + datetime.timedelta(days=1)` for dates below `dateMax`). -/
def nextDate (d : Date) : Date :=
  if d.day < daysInMonth d.year d.month then ⟨d.year, d.month, d.day + 1⟩
  else if d.month < 12 then ⟨d.year, d.month + 1, 1⟩
  else ⟨d.year + 1, 1, 1⟩

/-- `d` shifted forward by `n` calendar days. -/
def addDays (d : Date) : Nat → Date
  | 0 => d
  | n + 1 => addDays (nextDate d) n

/-! ### Characters, digits, zero-padded decimal rendering -/

def chDigit (c : Char) : Option Nat :=
  if c = '0' then some 0
  else if c = '1' then some 1
  else if c = '2' then some 2
  else if c = '3' then some 3
  else if c = '4' then some 4
  else if c = '5' then some 5
  else if c = '6' then some 6
  else if c = '7' then some 7
  else if c = '8' then some 8
  else if c = '9' then some 9
  else none

def digitChar : Nat → Char
  | 0 => '0'
  | 1 => '1'
  | 2 => '2'
  | 3 => '3'
  | 4 => '4'
  | 5 => '5'
  | 6 => '6'
  | 7 => '7'
  | 8 => '8'
  | 9 => '9'
  | _ => '*'

/-- two fixed decimal digits. -/
def parse2 (a b : Char) : Option Nat :=
  match chDigit a, chDigit b with
  | some x, some y => some (10 * x + y)
  | _, _ => none

/-- four fixed decimal digits. -/
def parse4 (a b c d : Char) : Option Nat :=
  match chDigit a, chDigit b, chDigit c, chDigit d with
  | some w, some x, some y, some z => some (1000 * w + 100 * x + 10 * y + z)
  | _, _, _, _ => none

/-- the two-digit decimal rendering of `n ≤ 99` (as Python `%02d`). -/
def twoDigits (n : Nat) : List Char := [digitChar (n / 10), digitChar (n % 10)]

/-- the four-digit decimal rendering of `n ≤ 9999` (as Python `%04d`). -/
def fourDigits (n : Nat) : List Char :=
  [digitChar (n / 1000), digitChar (n / 100 % 10), digitChar (n / 10 % 10),
    digitChar (n % 10)]

/-- model of `time.isoformat()` for a time with `microsecond == 0`:
the string `HH:MM:SS`. -/
def Time.isoformat (t : Time) : String :=
  String.mk (twoDigits t.hour ++ ':' :: twoDigits t.minute ++ ':' :: twoDigits t.second)

/-- model of `datetime.isoformat()` for a datetime with `microsecond == 0`:
the string `YYYY-MM-DDTHH:MM:SS`. -/
def DateTime.isoformat (dt : DateTime) : String :=
  String.mk (fourDigits dt.year ++ '-' :: twoDigits dt.month ++ '-' :: twoDigits dt.day
    ++ 'T' :: twoDigits dt.hour ++ ':' :: twoDigits dt.minute ++ ':' :: twoDigits dt.second)

/-! ### The datetime normalization helper `_parse_dt_string` -/

/-- Range checks performed by the `datetime.datetime` constructor; a
candidate outside them makes `strptime` raise `ValueError`, which
`_parse_dt_string` swallows. -/
def mkDateTime (y mo d h mi s : Nat) : Option DateTime :=
  if 1 ≤ y ∧ y ≤ 9999 ∧ 1 ≤ mo ∧ mo ≤ 12 ∧ 1 ≤ d ∧ d ≤ daysInMonth y mo ∧
      h ≤ 23 ∧ mi ≤ 59 ∧ s ≤ 59 then
    some ⟨y, mo, d, h, mi, s⟩
  else none

/-- model of `datetime.strptime(s, "%Y%m%dT%H%M%S")` on ICS tokens:
exactly `YYYYMMDDTHHMMSS` with in-range fields. -/
def strptimeFull (str : String) : Option DateTime :=
  match str.data with
  | [y1, y2, y3, y4, mo1, mo2, d1, d2, t, h1, h2, mi1, mi2, s1, s2] =>
    if t = 'T' then
      match parse4 y1 y2 y3 y4, parse2 mo1 mo2, parse2 d1 d2,
          parse2 h1 h2, parse2 mi1 mi2, parse2 s1 s2 with
      | some y, some mo, some d, some h, some mi, some s => mkDateTime y mo d h mi s
      | _, _, _, _, _, _ => none
    else none
  | _ => none

/-- model of `datetime.strptime(s, "%Y%m%dT%H%M")` on ICS tokens:
exactly `YYYYMMDDTHHMM` with in-range fields; seconds default to 0. -/
def strptimeShort (str : String) : Option DateTime :=
  match str.data with
  | [y1, y2, y3, y4, mo1, mo2, d1, d2, t, h1, h2, mi1, mi2] =>
    if t = 'T' then
      match parse4 y1 y2 y3 y4, parse2 mo1 mo2, parse2 d1 d2,
          parse2 h1 h2, parse2 mi1 mi2 with
      | some y, some mo, some d, some h, some mi => mkDateTime y mo d h mi 0
      | _, _, _, _, _ => none
    else none
  | _ => none

/-- `dt_str[:-1] if dt_str.endswith('Z') else dt_str`. -/
def stripTrailingZ (s : String) : String :=
  if s.data.getLast? = some 'Z' then String.mk s.data.dropLast else s

/-- model of `helper._parse_dt_string`: strip one trailing `Z`, try the
`%Y%m%dT%H%M%S` format, then `%Y%m%dT%H%M`; `none` if neither matches. -/
def _parse_dt_string (dt_str : String) : Option DateTime :=
  match strptimeFull (stripTrailingZ dt_str) with
  | some dt => some dt
  | none => strptimeShort (stripTrailingZ dt_str)

/-! ### Python string primitives used by the parser -/

/-- whitespace stripped by `str.strip()` (the ASCII cases). -/
def pyIsSpace (c : Char) : Bool :=
  c = ' ' || c = '\t' || c = '\n' || c = '\r' || c = '\x0b' || c = '\x0c'

/-- model of `str.strip()`. -/
def pyStrip (s : String) : String :=
  String.mk (((s.data.dropWhile pyIsSpace).reverse.dropWhile pyIsSpace).reverse)

/-- splitter for `str.splitlines()`: a line ends at `\n`, `\r` or `\r\n`;
a trailing terminator does not produce an extra empty line. -/
def splitlinesAux : List Char → List Char → List String
  | [], acc => if acc.isEmpty then [] else [String.mk acc.reverse]
  | '\r' :: '\n' :: rest, acc => String.mk acc.reverse :: splitlinesAux rest []
  | '\r' :: rest, acc => String.mk acc.reverse :: splitlinesAux rest []
  | '\n' :: rest, acc => String.mk acc.reverse :: splitlinesAux rest []
  | c :: rest, acc => splitlinesAux rest (c :: acc)

/-- model of `str.splitlines()`. -/
def pySplitlines (s : String) : List String := splitlinesAux s.data []

/-- split at the first occurrence of `sep`, as `str.split(sep, 1)` when the
separator occurs; `none` when it does not. -/
def splitFirstAux (sep : Char) : List Char → Option (List Char × List Char)
  | [] => none
  | c :: rest =>
    if c = sep then some ([], rest)
    else (splitFirstAux sep rest).map (fun p => (c :: p.1, p.2))

/-- `str.split(sep, 1)` restricted to the case where `sep` occurs
(`none` corresponds to `sep not in s`). -/
def pySplitFirst (sep : Char) (s : String) : Option (String × String) :=
  (splitFirstAux sep s.data).map (fun p => (String.mk p.1, String.mk p.2))

/-- splitter for `str.split(sep)` (full split, no maxsplit). -/
def splitAllAux (sep : Char) : List Char → List (List Char)
  | [] => [[]]
  | c :: rest =>
    match splitAllAux sep rest with
    | [] => [[]]
    | h :: t => if c = sep then [] :: h :: t else (c :: h) :: t

/-- model of `str.split(sep)`. -/
def pySplitAll (sep : Char) (s : String) : List String :=
  (splitAllAux sep s.data).map String.mk

/-- `key.split(";")[0]`: everything before the first `;`. -/
def beforeSemicolon (s : String) : String :=
  String.mk (s.data.takeWhile (fun c => c ≠ ';'))

/-! ### RawEvent (the Python event dict) and RRULE parsing -/

/-- The event dictionary built by `parse_ics_to_raw`.  Each Python dict key
is an `Option` field, `none` meaning the key is absent.  The `RRULE` handler
stores the keys `days` and `until` together, with `until` possibly `None`;
a present-but-`None` `until` is collapsed into `none` here (no reader of the
dict distinguishes the two, and `days` witnesses the dict being non-empty). -/
structure RawEvent where
  start_time : Option String := none
  end_time : Option String := none
  summary : Option String := none
  location : Option String := none
  days : Option (List Nat) := none
  until_ : Option String := none
deriving DecidableEq

def emptyRawEvent : RawEvent := {}

/-- Python truthiness of the event dict: it is non-empty exactly when some
key has been stored (`until` is only ever stored together with `days`). -/
def eventNonempty (ev : RawEvent) : Bool :=
  ev.start_time.isSome || ev.end_time.isSome || ev.summary.isSome ||
    ev.location.isSome || ev.days.isSome

/-- `WEEKDAY_MAP = {"MO": 0, "TU": 1, "WE": 2, "TH": 3, "FR": 4, "SA": 5, "SU": 6}`. -/
def WEEKDAY_MAP : List (String × Nat) :=
  [("MO", 0), ("TU", 1), ("WE", 2), ("TH", 3), ("FR", 4), ("SA", 5), ("SU", 6)]

def weekdayLookup (code : String) : Option Nat :=
  (WEEKDAY_MAP.find? (fun p => p.1 = code)).map (fun p => p.2)

/-- dict insertion with last-occurrence-wins overwrite. -/
def setRule : List (String × String) → String → String → List (String × String)
  | [], k, v => [(k, v)]
  | (k', v') :: rest, k, v =>
    if k' = k then (k', v) :: rest else (k', v') :: setRule rest k v

def getRule (rules : List (String × String)) (k : String) : Option String :=
  (rules.find? (fun p => p.1 = k)).map (fun p => p.2)

/-- the `rules` dict built from an RRULE value: split on `;`, and every
segment containing `=` contributes `key = part-before-first-=`,
`value = rest` (later duplicates overwrite). -/
def rulesOf (rrule_str : String) : List (String × String) :=
  (pySplitAll ';' rrule_str).foldl
    (fun acc part =>
      match pySplitFirst '=' part with
      | some (k, v) => setRule acc k v
      | none => acc)
    []

/-- result of `parse_rrule_to_raw`: the dict `{"days": ..., "until": ...}`. -/
structure RRuleRaw where
  days : List Nat
  until_ : Option String
deriving DecidableEq

/-- model of `helper.parse_rrule_to_raw`. -/
def parse_rrule_to_raw (rrule_str : String) (start_dt : Option DateTime) : RRuleRaw :=
  let rules := rulesOf rrule_str
  let days :=
    match getRule rules "BYDAY" with
    | some v => (pySplitAll ',' v).filterMap weekdayLookup
    | none =>
      match start_dt with
      | some dt => [dt.weekday]
      | none => []
  let until_dt := _parse_dt_string ((getRule rules "UNTIL").getD "")
  { days := List.insertionSort (fun a b => a ≤ b) days,
    until_ := until_dt.map DateTime.isoformat }

/-! ### The line parser `parse_ics_to_raw` -/

/-- the mutable loop state of `parse_ics_to_raw`. -/
structure ParserState where
  events : List RawEvent
  current_event_data : Option RawEvent
  start_dt_for_rrule : Option DateTime
  in_event_block : Bool
deriving DecidableEq

def initState : ParserState := ⟨[], none, none, false⟩

/-- processing of one `KEY[;PARAMS]:VALUE` line inside a VEVENT block:
updates the accumulator and the DTSTART anchor. -/
def applyProp (ev : RawEvent) (anchor : Option DateTime) (line : String) :
    RawEvent × Option DateTime :=
  match pySplitFirst ':' line with
  | none => (ev, anchor)
  | some (k0, value) =>
    let key := beforeSemicolon k0
    if key = "DTSTART" then
      match _parse_dt_string value with
      | some dt => ({ ev with start_time := some (Time.isoformat dt.timeOf) }, some dt)
      | none => (ev, anchor)
    else if key = "DTEND" then
      match _parse_dt_string value with
      | some dt => ({ ev with end_time := some (Time.isoformat dt.timeOf) }, anchor)
      | none => (ev, anchor)
    else if key = "SUMMARY" then ({ ev with summary := some value }, anchor)
    else if key = "LOCATION" then ({ ev with location := some (pyStrip value) }, anchor)
    else if key = "RRULE" then
      let r := parse_rrule_to_raw value anchor
      ({ ev with days := some r.days, until_ := r.until_ }, anchor)
    else (ev, anchor)

/-- one iteration of the `for line in ics_text.splitlines()` loop. -/
def parseStep (s : ParserState) (rawLine : String) : ParserState :=
  if pyStrip rawLine = "BEGIN:VEVENT" then
    { s with in_event_block := true, current_event_data := some emptyRawEvent,
             start_dt_for_rrule := none }
  else if pyStrip rawLine = "END:VEVENT" then
    { s with in_event_block := false,
             events :=
               match s.current_event_data with
               | some ev => if eventNonempty ev then s.events ++ [ev] else s.events
               | none => s.events,
             current_event_data := none }
  else
    match s.current_event_data, s.in_event_block with
    | some ev, true =>
      { s with
        current_event_data := some (applyProp ev s.start_dt_for_rrule (pyStrip rawLine)).1,
        start_dt_for_rrule := (applyProp ev s.start_dt_for_rrule (pyStrip rawLine)).2 }
    | _, _ => s

/-- the parsed calendar `{"events": [...]}`. -/
structure Calendar where
  events : List RawEvent
deriving DecidableEq

/-- model of `helper.parse_ics_to_raw`. -/
def parse_ics_to_raw (ics_text : String) : Calendar :=
  ⟨((pySplitlines ics_text).foldl parseStep initState).events⟩

/-! ### `fromisoformat` models -/

/-- model of `datetime.time.fromisoformat` on the forms this module can
produce or consume: `HH:MM` and `HH:MM:SS` with in-range fields
(fractional parts never arise: the parser stores `microsecond == 0` times). -/
def time_fromisoformat (s : String) : Option Time :=
  match s.data with
  | [h1, h2, c1, m1, m2] =>
    if c1 = ':' then
      match parse2 h1 h2, parse2 m1 m2 with
      | some h, some m => if h ≤ 23 ∧ m ≤ 59 then some ⟨h, m, 0⟩ else none
      | _, _ => none
    else none
  | [h1, h2, c1, m1, m2, c2, s1, s2] =>
    if c1 = ':' ∧ c2 = ':' then
      match parse2 h1 h2, parse2 m1 m2, parse2 s1 s2 with
      | some h, some m, some sec =>
        if h ≤ 23 ∧ m ≤ 59 ∧ sec ≤ 59 then some ⟨h, m, sec⟩ else none
      | _, _, _ => none
    else none
  | _ => none

/-- model of `datetime.datetime.fromisoformat` on the forms this module can
produce or consume: `YYYY-MM-DD`, optionally followed by a separator
character and `HH:MM` or `HH:MM:SS`, all fields in range. -/
def datetime_fromisoformat (s : String) : Option DateTime :=
  match s.data with
  | [y1, y2, y3, y4, g1, mo1, mo2, g2, d1, d2] =>
    if g1 = '-' ∧ g2 = '-' then
      match parse4 y1 y2 y3 y4, parse2 mo1 mo2, parse2 d1 d2 with
      | some y, some mo, some d => mkDateTime y mo d 0 0 0
      | _, _, _ => none
    else none
  | [y1, y2, y3, y4, g1, mo1, mo2, g2, d1, d2, _, h1, h2, c1, mi1, mi2] =>
    if g1 = '-' ∧ g2 = '-' ∧ c1 = ':' then
      match parse4 y1 y2 y3 y4, parse2 mo1 mo2, parse2 d1 d2,
          parse2 h1 h2, parse2 mi1 mi2 with
      | some y, some mo, some d, some h, some mi => mkDateTime y mo d h mi 0
      | _, _, _, _, _ => none
    else none
  | [y1, y2, y3, y4, g1, mo1, mo2, g2, d1, d2, _, h1, h2, c1, mi1, mi2, c2, s1, s2] =>
    if g1 = '-' ∧ g2 = '-' ∧ c1 = ':' ∧ c2 = ':' then
      match parse4 y1 y2 y3 y4, parse2 mo1 mo2, parse2 d1 d2,
          parse2 h1 h2, parse2 mi1 mi2, parse2 s1 s2 with
      | some y, some mo, some d, some h, some mi, some sec => mkDateTime y mo d h mi sec
      | _, _, _, _, _, _ => none
    else none
  | _ => none

/-! ### The recurrence evaluator -/

instance {ε α : Type} [DecidableEq ε] [DecidableEq α] : DecidableEq (Except ε α) :=
  fun x y =>
    match x, y with
    | .error a, .error b =>
      if h : a = b then .isTrue (by rw [h]) else .isFalse (by intro hc; cases hc; exact h rfl)
    | .ok a, .ok b =>
      if h : a = b then .isTrue (by rw [h]) else .isFalse (by intro hc; cases hc; exact h rfl)
    | .error _, .ok _ => .isFalse (by intro hc; cases hc)
    | .ok _, .error _ => .isFalse (by intro hc; cases hc)

/-- the Python exceptions the evaluator can raise. -/
inductive PyExc where
  | keyErr        -- `KeyError` from a missing dict key
  | valueErr      -- `ValueError` from `fromisoformat`
  | overflowErr   -- `OverflowError` from stepping past `date.max`
deriving DecidableEq

/-- model of `helper.is_event_on_date` (with an explicit date: the
no-argument `date.today()` default is a pass-through not modelled here).
`event.get("until")` is truthy exactly on a present, non-empty string. -/
def is_event_on_date (event : RawEvent) (check_date : Date) : Except PyExc Bool :=
  let wdOk : Bool := (event.days.getD []).contains check_date.weekday
  match event.until_ with
  | some u =>
    if u = "" then .ok wdOk
    else
      match datetime_fromisoformat u with
      | none => .error .valueErr
      | some until_dt =>
        if until_dt.dateOf.toOrdinal < check_date.toOrdinal then .ok false
        else .ok wdOk
  | none => .ok wdOk

/-- the `while current_date <= end_range` loop of `expand_event_occurrences`.
`fuel` bounds the iteration count; the callers below pass
`end.toOrdinal + 1 - start.toOrdinal`, which is exact for valid dates.
Incrementing past `dateMax` raises `OverflowError`; a raise anywhere in the
generator makes the whole consumed sequence fail, which the `Except` models. -/
def expandLoop (event : RawEvent) (st et : Time) (end_range : Date) :
    Nat → Date → Except PyExc (List (DateTime × DateTime))
  | 0, _ => .ok []
  | fuel + 1, current =>
    if current.toOrdinal ≤ end_range.toOrdinal then
      match is_event_on_date event current with
      | .error e => .error e
      | .ok b =>
        if current = dateMax then .error .overflowErr
        else
          match expandLoop event st et end_range fuel (nextDate current) with
          | .error e => .error e
          | .ok rest =>
            .ok (if b then (combine current st, combine current et) :: rest else rest)
    else .ok []

/-- model of `helper.expand_event_occurrences` (the generator, fully
consumed): looks up and parses `start_time` and `end_time`, then walks the
date range day by day. -/
def expand_event_occurrences (event : RawEvent) (start_range end_range : Date) :
    Except PyExc (List (DateTime × DateTime)) :=
  match event.start_time with
  | none => .error .keyErr
  | some sts =>
    match time_fromisoformat sts with
    | none => .error .valueErr
    | some st =>
      match event.end_time with
      | none => .error .keyErr
      | some ets =>
        match time_fromisoformat ets with
        | none => .error .valueErr
        | some et =>
          expandLoop event st et end_range
            (end_range.toOrdinal + 1 - start_range.toOrdinal) start_range

/-! ### The loader `load_and_parse_calendar`

File access is modelled by the outcome of `open(...).read()`: the file is
missing (`FileNotFoundError`), reading fails with an `OSError`/`IOError`, the
bytes fail to decode (`UnicodeDecodeError`, a `ValueError`), or text is
produced.  `parse_ics_to_raw` itself is total, so no further failure arises. -/

inductive ReadOutcome where
  | fileNotFound
  | ioError
  | decodeError
  | content (text : String)
deriving DecidableEq

/-- the two exception classes the loader translates failures into. -/
inductive CalendarExc where
  | calendarNotFoundError
  | calendarParseError
deriving DecidableEq

/-- model of `helper.load_and_parse_calendar`. -/
def load_and_parse_calendar : ReadOutcome → Except CalendarExc Calendar
  | .fileNotFound => .error .calendarNotFoundError
  | .ioError => .error .calendarParseError
  | .decodeError => .error .calendarParseError
  | .content text => .ok (parse_ics_to_raw text)

/-! ### Spec-side observers

These definitions follow the specification's vocabulary (matched BEGIN/END
pairs, the per-date occurrence list); the theorems below compare them with
the code models above. -/

/-- the `KEY` of a line as the parser extracts it (strip, part before the
first `:`, truncated at the first `;`); `none` when the line has no colon. -/
def lineKey (rawLine : String) : Option String :=
  (pySplitFirst ':' (pyStrip rawLine)).map (fun p => beforeSemicolon p.1)

/-- whether a (stripped) property line stores a key into the accumulator:
a recognized key, with a parseable value for `DTSTART`/`DTEND`. -/
def lineSetsKey (line : String) : Bool :=
  match pySplitFirst ':' line with
  | none => false
  | some (k0, value) =>
    let key := beforeSemicolon k0
    if key = "DTSTART" || key = "DTEND" then (_parse_dt_string value).isSome
    else key = "SUMMARY" || key = "LOCATION" || key = "RRULE"

/-- Spec-side counter of matched `BEGIN:VEVENT`/`END:VEVENT` pairs: an END
arriving while a block is open closes one pair. -/
def pairStep (st : Bool × Nat) (rawLine : String) : Bool × Nat :=
  if pyStrip rawLine = "BEGIN:VEVENT" then (true, st.2)
  else if pyStrip rawLine = "END:VEVENT" then (false, if st.1 then st.2 + 1 else st.2)
  else st

def specMatchedPairs (text : String) : Nat :=
  ((pySplitlines text).foldl pairStep (false, 0)).2

/-- Spec-side scanner that additionally tracks whether the open block has
stored at least one recognized property. -/
structure ScanState where
  blockOpen : Bool
  blockDirty : Bool
  count : Nat
deriving DecidableEq

def scanStep (st : ScanState) (rawLine : String) : ScanState :=
  if pyStrip rawLine = "BEGIN:VEVENT" then ⟨true, false, st.count⟩
  else if pyStrip rawLine = "END:VEVENT" then
    ⟨false, false, if st.blockOpen && st.blockDirty then st.count + 1 else st.count⟩
  else
    { st with blockDirty := st.blockDirty || (st.blockOpen && lineSetsKey (pyStrip rawLine)) }

/-- matched BEGIN/END pairs whose block stored at least one recognized
property line. -/
def specMatchedNonemptyPairs (text : String) : Nat :=
  ((pySplitlines text).foldl scanStep ⟨false, false, 0⟩).count

/-- the ascending list of `n` consecutive dates starting at `s`. -/
def rangeDates (s : Date) (n : Nat) : List Date := (List.range n).map (addDays s)

/-- the dates of `[startRange, endRange]` on which the event occurs, in
ascending order. -/
def occurrenceDates (ev : RawEvent) (startRange endRange : Date) : List Date :=
  (rangeDates startRange (endRange.toOrdinal + 1 - startRange.toOrdinal)).filter
    (fun d => decide (is_event_on_date ev d = .ok true))

/-- the event's `until` value, when present and non-empty, parses with
`fromisoformat` — true of every parser-produced event, and exactly the
condition under which `is_event_on_date` cannot raise. -/
def untilParses (ev : RawEvent) : Prop :=
  ∀ u, ev.until_ = some u → u ≠ "" → (datetime_fromisoformat u).isSome

/-- an optional time string that is the ISO serialization of a valid
time-of-day (the shape of every parser-produced `start_time`/`end_time`). -/
def timeStrOk (o : Option String) : Prop :=
  ∀ s, o = some s → ∃ t : Time, t.isValid ∧ s = t.isoformat

def eventTimesOk (ev : RawEvent) : Prop :=
  timeStrOk ev.start_time ∧ timeStrOk ev.end_time

/-- invariant of the parser loop: every finished and in-progress event has
well-formed time strings. -/
def stateTimesOk (ps : ParserState) : Prop :=
  (∀ ev ∈ ps.events, eventTimesOk ev) ∧
    (∀ ev, ps.current_event_data = some ev → eventTimesOk ev)

/-- simulation relation between the parser loop state and the spec-side
pair scanner: the scanner's count is the number of finished events, its
block flag is the parser's, and its dirty flag says whether the open
accumulator is a non-empty dict. -/
def scanInv (ps : ParserState) (ss : ScanState) : Prop :=
  ss.count = ps.events.length ∧ ss.blockOpen = ps.in_event_block ∧
    (ps.current_event_data = none → ps.in_event_block = false) ∧
    (∀ ev, ps.current_event_data = some ev →
      ps.in_event_block = true ∧ ss.blockDirty = eventNonempty ev)

/-! ### Digit and round-trip lemmas -/

theorem chDigit_digitChar : ∀ d < 10, chDigit (digitChar d) = some d := by decide

theorem parse2_twoDigits (n : Nat) (h : n ≤ 99) :
    parse2 (digitChar (n / 10)) (digitChar (n % 10)) = some n := by
  have h1 : n / 10 < 10 := by omega
  have h2 : n % 10 < 10 := by omega
  unfold parse2
  rw [chDigit_digitChar _ h1, chDigit_digitChar _ h2]
  have : 10 * (n / 10) + n % 10 = n := by omega
  simp [this]

theorem parse4_fourDigits (n : Nat) (h : n ≤ 9999) :
    parse4 (digitChar (n / 1000)) (digitChar (n / 100 % 10)) (digitChar (n / 10 % 10))
      (digitChar (n % 10)) = some n := by
  have h1 : n / 1000 < 10 := by omega
  have h2 : n / 100 % 10 < 10 := by omega
  have h3 : n / 10 % 10 < 10 := by omega
  have h4 : n % 10 < 10 := by omega
  unfold parse4
  rw [chDigit_digitChar _ h1, chDigit_digitChar _ h2, chDigit_digitChar _ h3,
    chDigit_digitChar _ h4]
  have : 1000 * (n / 1000) + 100 * (n / 100 % 10) + 10 * (n / 10 % 10) + n % 10 = n := by
    omega
  simp [this]

theorem time_fromisoformat_isoformat (t : Time) (h : t.isValid) :
    time_fromisoformat t.isoformat = some t := by
  cases t with
  | mk hr mi se =>
    have hh : hr ≤ 23 := h.1
    have hm : mi ≤ 59 := h.2.1
    have hs : se ≤ 59 := h.2.2
    simp only [Time.isoformat, twoDigits, time_fromisoformat, List.cons_append,
      List.nil_append]
    rw [parse2_twoDigits hr (by omega), parse2_twoDigits mi (by omega),
      parse2_twoDigits se (by omega)]
    simp [hh, hm, hs]

/-! ### Validity of parsed datetimes -/

theorem mkDateTime_isValid {y mo d h mi s : Nat} {dt : DateTime}
    (he : mkDateTime y mo d h mi s = some dt) : dt.isValid := by
  unfold mkDateTime at he
  split at he
  · cases he
    rename_i hb
    exact ⟨⟨hb.1, hb.2.1, hb.2.2.1, hb.2.2.2.1, hb.2.2.2.2.1, hb.2.2.2.2.2.1⟩,
      hb.2.2.2.2.2.2.1, hb.2.2.2.2.2.2.2.1, hb.2.2.2.2.2.2.2.2⟩
  · cases he

theorem strptimeFull_isValid {s : String} {dt : DateTime}
    (he : strptimeFull s = some dt) : dt.isValid := by
  unfold strptimeFull at he
  split at he
  · split at he
    · split at he
      · exact mkDateTime_isValid he
      · cases he
    · cases he
  · cases he

theorem strptimeShort_isValid {s : String} {dt : DateTime}
    (he : strptimeShort s = some dt) : dt.isValid := by
  unfold strptimeShort at he
  split at he
  · split at he
    · split at he
      · exact mkDateTime_isValid he
      · cases he
    · cases he
  · cases he

theorem _parse_dt_string_isValid {s : String} {dt : DateTime}
    (he : _parse_dt_string s = some dt) : dt.isValid := by
  unfold _parse_dt_string at he
  split at he
  · cases he
    exact strptimeFull_isValid (by assumption)
  · exact strptimeShort_isValid he

/-! ### Calendar arithmetic lemmas -/

theorem daysInMonth_pos (y m : Nat) (h1 : 1 ≤ m) (h2 : m ≤ 12) :
    1 ≤ daysInMonth y m := by
  interval_cases m <;> cases hl : isLeap y <;> simp [daysInMonth, hl]

theorem daysBeforeMonth_succ (y m : Nat) (h1 : 1 ≤ m) (h2 : m ≤ 11) :
    daysBeforeMonth y (m + 1) = daysBeforeMonth y m + daysInMonth y m := by
  interval_cases m <;> cases hl : isLeap y <;> simp [daysBeforeMonth, daysInMonth, hl]

theorem isLeap_iff (y : Nat) :
    isLeap y = true ↔ (y % 4 = 0 ∧ (y % 100 ≠ 0 ∨ y % 400 = 0)) := by
  simp [isLeap]

set_option maxHeartbeats 1000000 in
theorem daysBeforeYear_succ (y : Nat) (h : 1 ≤ y) :
    daysBeforeYear (y + 1) = daysBeforeYear y + (if isLeap y then 366 else 365) := by
  cases hl : isLeap y
  · have hp : ¬(y % 4 = 0 ∧ (y % 100 ≠ 0 ∨ y % 400 = 0)) := by
      rw [← isLeap_iff, hl]; simp
    simp only [daysBeforeYear, Nat.add_sub_cancel, Bool.false_eq_true, if_false]
    omega
  · have hp : y % 4 = 0 ∧ (y % 100 ≠ 0 ∨ y % 400 = 0) := (isLeap_iff y).mp hl
    simp only [daysBeforeYear, Nat.add_sub_cancel, if_true]
    omega

theorem toOrdinal_nextDate (d : Date) (hd : d.isValid) :
    (nextDate d).toOrdinal = d.toOrdinal + 1 := by
  obtain ⟨hy1, hy2, hm1, hm2, hd1, hd2⟩ := hd
  unfold nextDate
  split_ifs with h1 h2
  · show daysBeforeYear d.year + daysBeforeMonth d.year d.month + (d.day + 1)
      = daysBeforeYear d.year + daysBeforeMonth d.year d.month + d.day + 1
    omega
  · have hsucc := daysBeforeMonth_succ d.year d.month hm1 (by omega)
    show daysBeforeYear d.year + daysBeforeMonth d.year (d.month + 1) + 1
      = daysBeforeYear d.year + daysBeforeMonth d.year d.month + d.day + 1
    omega
  · have hm12 : d.month = 12 := by omega
    have hdim : daysInMonth d.year d.month = 31 := by rw [hm12]; rfl
    have hday : d.day = 31 := by omega
    have hdy := daysBeforeYear_succ d.year hy1
    have hdbm : daysBeforeMonth d.year d.month = 334 + (if isLeap d.year then 1 else 0) := by
      rw [hm12]; cases hl : isLeap d.year <;> simp [daysBeforeMonth, hl]
    have hdbm1 : daysBeforeMonth (d.year + 1) 1 = 0 := by simp [daysBeforeMonth]
    show daysBeforeYear (d.year + 1) + daysBeforeMonth (d.year + 1) 1 + 1
      = daysBeforeYear d.year + daysBeforeMonth d.year d.month + d.day + 1
    rcases Bool.eq_false_or_eq_true (isLeap d.year) with hl | hl <;>
      rw [hl] at hdy hdbm <;> simp at hdy hdbm <;> omega

theorem nextDate_isValid (d : Date) (hd : d.isValid) (hne : d ≠ dateMax) :
    (nextDate d).isValid := by
  obtain ⟨hy1, hy2, hm1, hm2, hd1, hd2⟩ := hd
  unfold nextDate
  split_ifs with h1 h2
  · exact ⟨hy1, hy2, hm1, hm2, show 1 ≤ d.day + 1 by omega,
      show d.day + 1 ≤ daysInMonth d.year d.month by omega⟩
  · exact ⟨hy1, hy2, show 1 ≤ d.month + 1 by omega, show d.month + 1 ≤ 12 by omega,
      show 1 ≤ 1 by omega,
      show 1 ≤ daysInMonth d.year (d.month + 1) from
        daysInMonth_pos d.year (d.month + 1) (by omega) (by omega)⟩
  · have hm12 : d.month = 12 := by omega
    have hdim : daysInMonth d.year d.month = 31 := by rw [hm12]; rfl
    have hday : d.day = 31 := by omega
    have hy : d.year ≠ 9999 := by
      intro hy
      apply hne
      cases d
      simp_all [dateMax]
    exact ⟨show 1 ≤ d.year + 1 by omega, show d.year + 1 ≤ 9999 by omega,
      show 1 ≤ 1 by omega, show 1 ≤ 12 by omega, show 1 ≤ 1 by omega,
      show 1 ≤ 31 by omega⟩

theorem addDays_spec (k : Nat) : ∀ d : Date, d.isValid →
    d.toOrdinal + k ≤ dateMax.toOrdinal →
    (addDays d k).isValid ∧ (addDays d k).toOrdinal = d.toOrdinal + k := by
  induction k with
  | zero => intro d hd _; exact ⟨hd, rfl⟩
  | succ k ih =>
    intro d hd hb
    have hne : d ≠ dateMax := by
      intro he; rw [he] at hb; omega
    have hv := nextDate_isValid d hd hne
    have ho := toOrdinal_nextDate d hd
    have hrec := ih (nextDate d) hv (by omega)
    constructor
    · show (addDays (nextDate d) k).isValid
      exact hrec.1
    · show (addDays (nextDate d) k).toOrdinal = d.toOrdinal + (k + 1)
      have h2 := hrec.2
      omega

/-! ### Evaluator lemmas -/

theorem is_event_on_date_no_until (ev : RawEvent) (d : Date) (h : ev.until_ = none) :
    is_event_on_date ev d = .ok ((ev.days.getD []).contains d.weekday) := by
  unfold is_event_on_date
  rw [h]

theorem is_event_on_date_until {ev : RawEvent} {u : String} {udt : DateTime} (d : Date)
    (hu : ev.until_ = some u) (hne : u ≠ "") (hp : datetime_fromisoformat u = some udt) :
    is_event_on_date ev d =
      .ok (if udt.dateOf.toOrdinal < d.toOrdinal then false
           else (ev.days.getD []).contains d.weekday) := by
  unfold is_event_on_date
  rw [hu]
  simp only [hne, if_false, hp, if_neg]
  split_ifs <;> simp_all

theorem is_event_on_date_empty_until (ev : RawEvent) (d : Date) (h : ev.until_ = some "") :
    is_event_on_date ev d = .ok ((ev.days.getD []).contains d.weekday) := by
  unfold is_event_on_date
  rw [h]
  simp

theorem is_event_on_date_ok (ev : RawEvent) (d : Date) (h : untilParses ev) :
    ∃ b, is_event_on_date ev d = .ok b := by
  cases huntil : ev.until_ with
  | none => exact ⟨_, is_event_on_date_no_until ev d huntil⟩
  | some u =>
    by_cases hu : u = ""
    · subst hu
      exact ⟨_, is_event_on_date_empty_until ev d huntil⟩
    · obtain ⟨udt, hudt⟩ := Option.isSome_iff_exists.mp (h u huntil hu)
      exact ⟨_, is_event_on_date_until d huntil hu hudt⟩

theorem rangeDates_succ (c : Date) (n : Nat) :
    rangeDates c (n + 1) = c :: rangeDates (nextDate c) n := by
  unfold rangeDates
  rw [List.range_succ_eq_map]
  simp only [List.map_cons, List.map_map]
  rfl

theorem expandLoop_spec (ev : RawEvent) (st et : Time) (e : Date) (hup : untilParses ev)
    (he : e.toOrdinal < dateMax.toOrdinal) :
    ∀ n c, c.isValid → e.toOrdinal + 1 - c.toOrdinal = n →
      expandLoop ev st et e n c =
        .ok (((rangeDates c n).filter
            (fun d => decide (is_event_on_date ev d = .ok true))).map
          (fun d => (combine d st, combine d et))) := by
  intro n
  induction n with
  | zero =>
    intro c _ _
    simp [expandLoop, rangeDates]
  | succ n ih =>
    intro c hc hn
    have hcle : c.toOrdinal ≤ e.toOrdinal := by omega
    have hcne : c ≠ dateMax := by
      intro h; rw [h] at hcle; omega
    obtain ⟨b, hb⟩ := is_event_on_date_ok ev c hup
    have hrec := ih (nextDate c) (nextDate_isValid c hc hcne)
      (by have := toOrdinal_nextDate c hc; omega)
    rw [rangeDates_succ]
    show (if c.toOrdinal ≤ e.toOrdinal then _ else _) = _
    rw [if_pos hcle, hb]
    show (if c = dateMax then Except.error PyExc.overflowErr
          else match expandLoop ev st et e n (nextDate c) with
               | Except.error e => Except.error e
               | Except.ok rest =>
                 Except.ok (if b then (combine c st, combine c et) :: rest else rest)) = _
    rw [if_neg hcne, hrec]
    cases b <;> simp [List.filter_cons, hb]

theorem daysBeforeYear_le_succ (b : Nat) : daysBeforeYear b ≤ daysBeforeYear (b + 1) := by
  cases b with
  | zero => decide
  | succ k =>
    have h := daysBeforeYear_succ (k + 1) (by omega)
    rcases Bool.eq_false_or_eq_true (isLeap (k + 1)) with hl | hl <;>
      rw [hl] at h <;> simp at h <;> omega

theorem daysBeforeYear_mono {a b : Nat} (h : a ≤ b) :
    daysBeforeYear a ≤ daysBeforeYear b := by
  induction b with
  | zero =>
    have : a = 0 := by omega
    subst this
    exact Nat.le_refl _
  | succ b ih =>
    rcases Nat.lt_or_ge a (b + 1) with hab | hab
    · exact Nat.le_trans (ih (by omega)) (daysBeforeYear_le_succ b)
    · have : a = b + 1 := by omega
      subst this
      exact Nat.le_refl _

theorem toOrdinal_le_max (d : Date) (hd : d.isValid) :
    d.toOrdinal ≤ dateMax.toOrdinal := by
  obtain ⟨hy1, hy2, hm1, hm2, hd1, hd2⟩ := hd
  have h1 : daysBeforeMonth d.year d.month + d.day ≤ (if isLeap d.year then 366 else 365) := by
    interval_cases m : d.month <;> cases hl : isLeap d.year <;>
      simp [daysBeforeMonth, daysInMonth, hl] at hd2 ⊢ <;> omega
  have h2 := daysBeforeYear_succ d.year hy1
  have h3 : daysBeforeYear (d.year + 1) ≤ daysBeforeYear 10000 :=
    daysBeforeYear_mono (by omega)
  have h4 : dateMax.toOrdinal = daysBeforeYear 10000 := by decide
  show daysBeforeYear d.year + daysBeforeMonth d.year d.month + d.day ≤ _
  rcases Bool.eq_false_or_eq_true (isLeap d.year) with hl | hl <;>
    rw [hl] at h1 h2 <;> simp at h1 h2 <;> omega

theorem toOrdinal_max_unique (c : Date) (hc : c.isValid)
    (h : c.toOrdinal = dateMax.toOrdinal) : c = dateMax := by
  by_contra hne
  have hv := nextDate_isValid c hc hne
  have ho := toOrdinal_nextDate c hc
  have := toOrdinal_le_max (nextDate c) hv
  omega

theorem expandLoop_overflow (ev : RawEvent) (st et : Time) (hup : untilParses ev) :
    ∀ n c, c.isValid → dateMax.toOrdinal + 1 - c.toOrdinal = n →
      c.toOrdinal ≤ dateMax.toOrdinal →
      expandLoop ev st et dateMax n c = .error .overflowErr := by
  intro n
  induction n with
  | zero => intro c _ hn hle; omega
  | succ n ih =>
    intro c hc hn hle
    obtain ⟨b, hb⟩ := is_event_on_date_ok ev c hup
    show (if c.toOrdinal ≤ dateMax.toOrdinal then _ else _) = _
    rw [if_pos hle, hb]
    show (if c = dateMax then Except.error PyExc.overflowErr
          else match expandLoop ev st et dateMax n (nextDate c) with
               | Except.error e => Except.error e
               | Except.ok rest =>
                 Except.ok (if b then (combine c st, combine c et) :: rest else rest)) = _
    by_cases hcm : c = dateMax
    · rw [if_pos hcm]
    · rw [if_neg hcm]
      have hlt : c.toOrdinal < dateMax.toOrdinal := by
        rcases Nat.lt_or_ge c.toOrdinal dateMax.toOrdinal with h | h
        · exact h
        · exact absurd (toOrdinal_max_unique c hc (by omega)) hcm
      have hrec := ih (nextDate c) (nextDate_isValid c hc hcm)
        (by have := toOrdinal_nextDate c hc; omega)
        (by have := toOrdinal_nextDate c hc; omega)
      rw [hrec]

theorem occurrenceDates_pairwise (ev : RawEvent) (s e : Date) (hs : s.isValid)
    (he : e.toOrdinal ≤ dateMax.toOrdinal) :
    (occurrenceDates ev s e).Pairwise (fun a b => a.toOrdinal < b.toOrdinal) := by
  unfold occurrenceDates
  apply List.Pairwise.sublist (List.filter_sublist _)
  unfold rangeDates
  rw [List.pairwise_map]
  apply (List.pairwise_lt_range _).imp_of_mem
  intro i j hi hj hij
  have hi' := List.mem_range.mp hi
  have hj' := List.mem_range.mp hj
  have h1 := (addDays_spec i s hs (by omega)).2
  have h2 := (addDays_spec j s hs (by omega)).2
  omega

/-! ### Claim theorems -/

/-- C3: `is_event_on_date` returns false when the event has an `until` and the
date is strictly after `until`'s date component, false when the date's weekday
is not in `days`, and true otherwise; the bound is inclusive, and `until` is
the exact ISO-8601 serialization of the parsed UNTIL timestamp. -/
theorem claim3_until_semantics (ev : RawEvent) (d : Date) :
    (ev.until_ = none →
      is_event_on_date ev d = .ok ((ev.days.getD []).contains d.weekday))
  ∧ (∀ u udt, ev.until_ = some u → u ≠ "" → datetime_fromisoformat u = some udt →
      ((udt.dateOf.toOrdinal < d.toOrdinal → is_event_on_date ev d = .ok false)
       ∧ (d.toOrdinal ≤ udt.dateOf.toOrdinal →
           is_event_on_date ev d = .ok ((ev.days.getD []).contains d.weekday))))
  ∧ (∀ rr a udt, _parse_dt_string ((getRule (rulesOf rr) "UNTIL").getD "") = some udt →
      (parse_rrule_to_raw rr a).until_ = some udt.isoformat)
  ∧ (parse_rrule_to_raw "FREQ=WEEKLY;UNTIL=20240301T000000" none).until_
      = some "2024-03-01T00:00:00"
  ∧ is_event_on_date { days := some [4], until_ := some "2024-03-01T00:00:00" }
      ⟨2024, 3, 1⟩ = .ok true
  ∧ is_event_on_date { days := some [4], until_ := some "2024-03-01T00:00:00" }
      ⟨2024, 3, 8⟩ = .ok false := by
  refine ⟨fun h => is_event_on_date_no_until ev d h, ?_, ?_, by decide, by decide, by decide⟩
  · intro u udt hu hne hp
    constructor
    · intro hlt
      rw [is_event_on_date_until d hu hne hp, if_pos hlt]
    · intro hge
      rw [is_event_on_date_until d hu hne hp, if_neg (by omega)]
  · intro rr a udt h
    show Option.map DateTime.isoformat
        (_parse_dt_string ((getRule (rulesOf rr) "UNTIL").getD "")) = some udt.isoformat
    rw [h]
    rfl

/-- C3 witness: the theorem instantiated at a concrete event and dates,
with each hypothesis discharged by evaluation. -/
theorem claim3_witness :
    is_event_on_date { days := some [0], until_ := some "2024-01-31T00:00:00" }
      ⟨2024, 2, 5⟩ = .ok false :=
  ((claim3_until_semantics
        { days := some [0], until_ := some "2024-01-31T00:00:00" } ⟨2024, 2, 5⟩).2.1
      "2024-01-31T00:00:00" ⟨2024, 1, 31, 0, 0, 0⟩ rfl (by decide) (by decide)).1 (by decide)

/-- C4 counterexample: with `endDate = 9999-12-31` (Python's `date.max`) and
`startDate ≤ endDate`, the date increment overflows, so the expansion raises
`OverflowError` instead of yielding one pair per occurring date (here the
occurrence list is empty, so the claim predicts an empty yield). -/
theorem claim4_counterexample :
    expand_event_occurrences
        { start_time := some "09:00:00", end_time := some "10:00:00", days := some [] }
        ⟨9999, 12, 31⟩ ⟨9999, 12, 31⟩ = .error .overflowErr
    ∧ occurrenceDates
        { start_time := some "09:00:00", end_time := some "10:00:00", days := some [] }
        ⟨9999, 12, 31⟩ ⟨9999, 12, 31⟩ = []
    ∧ expand_event_occurrences
        { start_time := some "09:00:00", end_time := some "10:00:00", days := some [] }
        ⟨9999, 12, 31⟩ ⟨9999, 12, 31⟩ ≠ .ok [] := by
  refine ⟨by decide, by decide, by decide⟩

/-- C4 (amended): for an event with parseable `start_time` and `end_time` and
a parseable-or-absent `until`, over valid dates: when `endDate` is before
9999-12-31, `expand_event_occurrences` yields exactly one
`(combine date start, combine date end)` pair for each date of
`[startDate, endDate]` on which the event occurs, in strictly ascending date
order; `startDate > endDate` yields the empty sequence; when
`endDate = 9999-12-31` and `startDate ≤ endDate`, the expansion instead fails
with `OverflowError` from stepping past `date.max`. -/
theorem claim4_expand (ev : RawEvent) (sts ets : String) (st et : Time) (s e : Date)
    (h1 : ev.start_time = some sts) (h2 : time_fromisoformat sts = some st)
    (h3 : ev.end_time = some ets) (h4 : time_fromisoformat ets = some et)
    (hup : untilParses ev) (hs : s.isValid) :
    (e.toOrdinal < dateMax.toOrdinal →
      expand_event_occurrences ev s e =
          .ok ((occurrenceDates ev s e).map (fun d => (combine d st, combine d et)))
        ∧ (occurrenceDates ev s e).Pairwise (fun a b => a.toOrdinal < b.toOrdinal))
  ∧ (e.toOrdinal < s.toOrdinal → expand_event_occurrences ev s e = .ok [])
  ∧ (s.toOrdinal ≤ e.toOrdinal → e = dateMax →
      expand_event_occurrences ev s e = .error .overflowErr) := by
  have hopen : ∀ r : Except PyExc (List (DateTime × DateTime)),
      expandLoop ev st et e (e.toOrdinal + 1 - s.toOrdinal) s = r →
      expand_event_occurrences ev s e = r := by
    intro r hr
    unfold expand_event_occurrences
    simp only [h1, h2, h3, h4]
    exact hr
  refine ⟨?_, ?_, ?_⟩
  · intro he
    constructor
    · apply hopen
      rw [expandLoop_spec ev st et e hup he _ s hs rfl]
      rfl
    · exact occurrenceDates_pairwise ev s e hs (by omega)
  · intro hlt
    apply hopen
    have hn : e.toOrdinal + 1 - s.toOrdinal = 0 := by omega
    rw [hn]
    rfl
  · intro hle hmax
    subst hmax
    apply hopen
    exact expandLoop_overflow ev st et hup _ s hs rfl hle

/-- C4 witness: the amended theorem applied to a concrete weekly event over
2024-01-01..2024-01-07, with every hypothesis discharged by evaluation. -/
theorem claim4_witness :
    expand_event_occurrences
        { start_time := some "09:00:00", end_time := some "10:00:00", days := some [0, 2, 4] }
        ⟨2024, 1, 1⟩ ⟨2024, 1, 7⟩ =
      .ok ((occurrenceDates
          { start_time := some "09:00:00", end_time := some "10:00:00", days := some [0, 2, 4] }
          ⟨2024, 1, 1⟩ ⟨2024, 1, 7⟩).map
        (fun d => (combine d ⟨9, 0, 0⟩, combine d ⟨10, 0, 0⟩))) :=
  ((claim4_expand
      { start_time := some "09:00:00", end_time := some "10:00:00", days := some [0, 2, 4] }
      "09:00:00" "10:00:00" ⟨9, 0, 0⟩ ⟨10, 0, 0⟩ ⟨2024, 1, 1⟩ ⟨2024, 1, 7⟩
      rfl (by decide) rfl (by decide)
      (fun u hu => by cases hu) (by decide)).1 (by decide)).1

/-- C5: BYDAY parsing splits on `,`, maps codes through the weekday table,
silently discards unrecognized codes (including ordinal forms like `2SU`),
and returns the indices sorted ascending; `BYDAY=MO,WE,FR` gives `[0,2,4]`
and `BYDAY=2SU` gives `[]` even when an anchor is present. -/
theorem claim5_byday :
    (∀ r a, ((parse_rrule_to_raw r a).days).Sorted (fun x y => x ≤ y))
  ∧ (∀ r a v w, getRule (rulesOf r) "BYDAY" = some v →
      (w ∈ (parse_rrule_to_raw r a).days ↔
        ∃ code ∈ pySplitAll ',' v, weekdayLookup code = some w))
  ∧ (parse_rrule_to_raw "FREQ=WEEKLY;BYDAY=MO,WE,FR" none).days = [0, 2, 4]
  ∧ (parse_rrule_to_raw "FREQ=WEEKLY;BYDAY=2SU" (some ⟨2024, 1, 1, 9, 0, 0⟩)).days
      = [] := by
  refine ⟨?_, ?_, by decide, by decide⟩
  · intro r a
    exact List.sorted_insertionSort _ _
  · intro r a v w hv
    show w ∈ List.insertionSort _ _ ↔ _
    rw [List.mem_insertionSort _, hv]
    exact List.mem_filterMap

/-- C5 witness: the BYDAY membership characterization evaluated on
`BYDAY=MO,WE,FR` for weekday 2. -/
theorem claim5_witness :
    2 ∈ (parse_rrule_to_raw "FREQ=WEEKLY;BYDAY=MO,WE,FR" none).days ↔
      ∃ code ∈ pySplitAll ',' "MO,WE,FR", weekdayLookup code = some 2 :=
  claim5_byday.2.1 "FREQ=WEEKLY;BYDAY=MO,WE,FR" none "MO,WE,FR" 2 (by decide)

/-- C6: `_parse_dt_string` strips a single trailing `Z` (a token not ending in
`Z` parses the same with a `Z` appended), tries `%Y%m%dT%H%M%S` then
`%Y%m%dT%H%M` returning the first success, and yields `none` (not an error)
when neither format matches. -/
theorem claim6_dt_helper :
    (∀ s : String, s.data.getLast? ≠ some 'Z' →
      _parse_dt_string (s ++ "Z") = _parse_dt_string s)
  ∧ (∀ (s : String) (dt : DateTime), strptimeFull (stripTrailingZ s) = some dt →
      _parse_dt_string s = some dt)
  ∧ (∀ s : String, strptimeFull (stripTrailingZ s) = none →
      _parse_dt_string s = strptimeShort (stripTrailingZ s))
  ∧ _parse_dt_string "20240101T0900" = some ⟨2024, 1, 1, 9, 0, 0⟩
  ∧ _parse_dt_string "garbage" = none
  ∧ _parse_dt_string "20240101T090000ZZ" = none := by
  refine ⟨?_, ?_, ?_, by decide, by decide, by decide⟩
  · intro s hz
    have h1 : stripTrailingZ (s ++ "Z") = s := by
      unfold stripTrailingZ
      have hdata : (s ++ "Z").data = s.data ++ ['Z'] := rfl
      rw [hdata]
      rw [if_pos (by simp)]
      have : (s.data ++ ['Z']).dropLast = s.data := by simp
      rw [this]
    have h2 : stripTrailingZ s = s := by
      unfold stripTrailingZ
      rw [if_neg hz]
    unfold _parse_dt_string
    rw [h1, h2]
  · intro s dt h
    unfold _parse_dt_string
    rw [h]
  · intro s h
    unfold _parse_dt_string
    rw [h]

/-- C6 witness: the Z-stripping part of the theorem applied to the concrete
token `20240101T090000`. -/
theorem claim6_witness :
    _parse_dt_string ("20240101T090000" ++ "Z") = _parse_dt_string "20240101T090000" :=
  claim6_dt_helper.1 "20240101T090000" (by decide)

/-- C8: the loader reports `CalendarNotFoundError` exactly when the file is
missing, `CalendarParseError` exactly on other read failures, and on success
returns the parsed `{events: [...]}` record; the categories are never
conflated. -/
theorem claim8_loader : ∀ io : ReadOutcome,
    (load_and_parse_calendar io = .error .calendarNotFoundError ↔ io = .fileNotFound)
  ∧ (load_and_parse_calendar io = .error .calendarParseError ↔
      (io = .ioError ∨ io = .decodeError))
  ∧ (∀ text, io = .content text →
      load_and_parse_calendar io = .ok (parse_ics_to_raw text)) := by
  intro io
  cases io <;> simp [load_and_parse_calendar]

/-- C8 witness: the loader evaluated on a concrete successful read. -/
theorem claim8_witness :
    load_and_parse_calendar (.content "") = .ok (parse_ics_to_raw "") :=
  (claim8_loader (.content "")).2.2 "" rfl

/-- C9 counterexample: expanding an event with no `start_time` raises the
generic `KeyError` of the missing dict key, not a distinct
"event not expandable" condition (the module's only distinct failure
categories, `CalendarNotFoundError`/`CalendarParseError`, are not raised
here). -/
theorem claim9_counterexample :
    expand_event_occurrences { end_time := some "10:00:00", days := some [0] }
      ⟨2024, 1, 1⟩ ⟨2024, 1, 7⟩ = .error .keyErr := by decide

/-- C9 (amended): expansion of an event missing `start_time`, or missing
`end_time` with a parseable `start_time`, fails with the generic missing-key
`KeyError` — never silently producing incorrect timestamps — and parsing such
an event still succeeds and includes it in the output. -/
theorem claim9_not_expandable :
    (∀ (ev : RawEvent) (s e : Date), ev.start_time = none →
      expand_event_occurrences ev s e = .error .keyErr)
  ∧ (∀ (ev : RawEvent) (s e : Date) (sts : String) (st : Time),
      ev.start_time = some sts → time_fromisoformat sts = some st →
      ev.end_time = none → expand_event_occurrences ev s e = .error .keyErr)
  ∧ (parse_ics_to_raw "BEGIN:VEVENT\nDTEND:20240101T100000\nEND:VEVENT").events
      = [{ end_time := some "10:00:00" }] := by
  refine ⟨?_, ?_, by decide⟩
  · intro ev s e h
    unfold expand_event_occurrences
    rw [h]
  · intro ev s e sts st hst hparse hend
    unfold expand_event_occurrences
    simp only [hst, hparse, hend]

/-- C9 witness: the amended theorem applied to a concrete event with no
`start_time`. -/
theorem claim9_witness :
    expand_event_occurrences { days := some [0] } ⟨2024, 1, 1⟩ ⟨2024, 1, 2⟩
      = .error .keyErr :=
  claim9_not_expandable.1 { days := some [0] } ⟨2024, 1, 1⟩ ⟨2024, 1, 2⟩ rfl

/-! ### Parser step lemmas -/

theorem eventNonempty_applyProp (ev : RawEvent) (a : Option DateTime) (line : String) :
    eventNonempty (applyProp ev a line).1 = (eventNonempty ev || lineSetsKey line) := by
  unfold applyProp lineSetsKey
  cases hsp : pySplitFirst ':' line with
  | none => simp [eventNonempty]
  | some kv =>
    obtain ⟨k0, value⟩ := kv
    by_cases h1 : beforeSemicolon k0 = "DTSTART"
    · cases hp : _parse_dt_string value <;> simp [h1, hp, eventNonempty]
    · by_cases h2 : beforeSemicolon k0 = "DTEND"
      · cases hp : _parse_dt_string value <;> simp [h1, h2, hp, eventNonempty]
      · by_cases h3 : beforeSemicolon k0 = "SUMMARY"
        · simp [h1, h2, h3, eventNonempty]
        · by_cases h4 : beforeSemicolon k0 = "LOCATION"
          · simp [h1, h2, h3, h4, eventNonempty]
          · by_cases h5 : beforeSemicolon k0 = "RRULE"
            · simp [h1, h2, h3, h4, h5, eventNonempty]
            · simp [h1, h2, h3, h4, h5, eventNonempty]

theorem applyProp_days (ev : RawEvent) (a : Option DateTime) (line : String)
    (h : (pySplitFirst ':' line).map (fun p => beforeSemicolon p.1) ≠ some "RRULE") :
    (applyProp ev a line).1.days = ev.days := by
  unfold applyProp
  cases hsp : pySplitFirst ':' line with
  | none => rfl
  | some kv =>
    obtain ⟨k0, value⟩ := kv
    have h5 : beforeSemicolon k0 ≠ "RRULE" := by
      intro hc
      apply h
      rw [hsp]
      simp [hc]
    by_cases h1 : beforeSemicolon k0 = "DTSTART"
    · cases hp : _parse_dt_string value <;> simp [h1, hp]
    · by_cases h2 : beforeSemicolon k0 = "DTEND"
      · cases hp : _parse_dt_string value <;> simp [h1, h2, hp]
      · by_cases h3 : beforeSemicolon k0 = "SUMMARY"
        · simp [h1, h2, h3]
        · by_cases h4 : beforeSemicolon k0 = "LOCATION"
          · simp [h1, h2, h3, h4]
          · simp [h1, h2, h3, h4, h5]

theorem applyProp_timesOk (ev : RawEvent) (a : Option DateTime) (line : String)
    (h : eventTimesOk ev) : eventTimesOk (applyProp ev a line).1 := by
  unfold applyProp
  cases hsp : pySplitFirst ':' line with
  | none => exact h
  | some kv =>
    obtain ⟨k0, value⟩ := kv
    by_cases h1 : beforeSemicolon k0 = "DTSTART"
    · cases hp : _parse_dt_string value with
      | none => simp only [h1, if_pos rfl, hp]; exact h
      | some dt =>
        simp only [h1, if_pos rfl, hp]
        refine ⟨?_, h.2⟩
        intro s hs
        cases hs
        exact ⟨dt.timeOf, (_parse_dt_string_isValid hp).2, rfl⟩
    · by_cases h2 : beforeSemicolon k0 = "DTEND"
      · cases hp : _parse_dt_string value with
        | none => simp only [h1, if_neg h1, h2, if_pos rfl, hp]; exact h
        | some dt =>
          simp only [h1, if_neg h1, h2, if_pos rfl, hp]
          refine ⟨h.1, ?_⟩
          intro s hs
          cases hs
          exact ⟨dt.timeOf, (_parse_dt_string_isValid hp).2, rfl⟩
      · by_cases h3 : beforeSemicolon k0 = "SUMMARY"
        · simp only [if_neg h1, if_neg h2, h3, if_pos rfl]
          exact h
        · by_cases h4 : beforeSemicolon k0 = "LOCATION"
          · simp only [if_neg h1, if_neg h2, if_neg h3, h4, if_pos rfl]
            exact h
          · by_cases h5 : beforeSemicolon k0 = "RRULE"
            · simp only [if_neg h1, if_neg h2, if_neg h3, if_neg h4, h5, if_pos rfl]
              exact h
            · simp only [if_neg h1, if_neg h2, if_neg h3, if_neg h4, if_neg h5]
              exact h

theorem parseStep_begin (ps : ParserState) (line : String)
    (hb : pyStrip line = "BEGIN:VEVENT") :
    parseStep ps line =
      { ps with in_event_block := true, current_event_data := some emptyRawEvent,
                start_dt_for_rrule := none } := by
  unfold parseStep
  rw [if_pos hb]

theorem parseStep_end (ps : ParserState) (line : String)
    (hb : pyStrip line ≠ "BEGIN:VEVENT") (hee : pyStrip line = "END:VEVENT") :
    parseStep ps line =
      { ps with in_event_block := false,
                events :=
                  match ps.current_event_data with
                  | some ev => if eventNonempty ev then ps.events ++ [ev] else ps.events
                  | none => ps.events,
                current_event_data := none } := by
  unfold parseStep
  rw [if_neg hb, if_pos hee]

theorem parseStep_prop_some (ps : ParserState) (line : String) (ev : RawEvent)
    (hb : pyStrip line ≠ "BEGIN:VEVENT") (hee : pyStrip line ≠ "END:VEVENT")
    (hcv : ps.current_event_data = some ev) (hblk : ps.in_event_block = true) :
    parseStep ps line =
      { ps with
        current_event_data := some (applyProp ev ps.start_dt_for_rrule (pyStrip line)).1,
        start_dt_for_rrule := (applyProp ev ps.start_dt_for_rrule (pyStrip line)).2 } := by
  unfold parseStep
  rw [if_neg hb, if_neg hee]
  simp only [hcv, hblk]

theorem parseStep_prop_none (ps : ParserState) (line : String)
    (hb : pyStrip line ≠ "BEGIN:VEVENT") (hee : pyStrip line ≠ "END:VEVENT")
    (hcv : ps.current_event_data = none) : parseStep ps line = ps := by
  unfold parseStep
  rw [if_neg hb, if_neg hee]
  simp only [hcv]

theorem parseStep_prop_notin (ps : ParserState) (line : String)
    (hb : pyStrip line ≠ "BEGIN:VEVENT") (hee : pyStrip line ≠ "END:VEVENT")
    (hblk : ps.in_event_block = false) : parseStep ps line = ps := by
  unfold parseStep
  rw [if_neg hb, if_neg hee]
  cases hcv : ps.current_event_data <;> simp only [hcv, hblk]

theorem scanStep_begin (ss : ScanState) (line : String)
    (hb : pyStrip line = "BEGIN:VEVENT") :
    scanStep ss line = ⟨true, false, ss.count⟩ := by
  unfold scanStep
  rw [if_pos hb]

theorem scanStep_end (ss : ScanState) (line : String)
    (hb : pyStrip line ≠ "BEGIN:VEVENT") (hee : pyStrip line = "END:VEVENT") :
    scanStep ss line =
      ⟨false, false, if ss.blockOpen && ss.blockDirty then ss.count + 1 else ss.count⟩ := by
  unfold scanStep
  rw [if_neg hb, if_pos hee]

theorem scanStep_other (ss : ScanState) (line : String)
    (hb : pyStrip line ≠ "BEGIN:VEVENT") (hee : pyStrip line ≠ "END:VEVENT") :
    scanStep ss line =
      { ss with blockDirty :=
          ss.blockDirty || (ss.blockOpen && lineSetsKey (pyStrip line)) } := by
  unfold scanStep
  rw [if_neg hb, if_neg hee]

theorem parseStep_scanInv (ps : ParserState) (ss : ScanState) (line : String)
    (h : scanInv ps ss) : scanInv (parseStep ps line) (scanStep ss line) := by
  obtain ⟨hc, ho, hnone, hsome⟩ := h
  by_cases hb : pyStrip line = "BEGIN:VEVENT"
  · rw [parseStep_begin ps line hb, scanStep_begin ss line hb]
    exact ⟨hc, rfl, fun hcl => Option.noConfusion hcl,
      fun ev hev => by cases hev; exact ⟨rfl, rfl⟩⟩
  · by_cases hee : pyStrip line = "END:VEVENT"
    · rw [parseStep_end ps line hb hee, scanStep_end ss line hb hee]
      refine ⟨?_, rfl, fun _ => rfl, fun ev hev => Option.noConfusion hev⟩
      cases hcv : ps.current_event_data with
      | none =>
        have hblk := hnone hcv
        simp [hcv, ho, hblk, hc]
      | some ev =>
        obtain ⟨hblk, hdirty⟩ := hsome ev hcv
        show (if ss.blockOpen && ss.blockDirty then ss.count + 1 else ss.count)
            = (if eventNonempty ev = true then ps.events ++ [ev] else ps.events).length
        rw [ho, hblk, hdirty]
        cases hne : eventNonempty ev <;> simp [hc]
    · cases hcv : ps.current_event_data with
      | none =>
        rw [parseStep_prop_none ps line hb hee hcv, scanStep_other ss line hb hee]
        refine ⟨hc, ho, hnone, ?_⟩
        intro ev hev
        rw [hcv] at hev
        exact Option.noConfusion hev
      | some ev =>
        by_cases hblk : ps.in_event_block = true
        · rw [parseStep_prop_some ps line ev hb hee hcv hblk, scanStep_other ss line hb hee]
          obtain ⟨_, hdirty⟩ := hsome ev hcv
          refine ⟨hc, ho, fun hcl => Option.noConfusion hcl, ?_⟩
          intro ev' hev'
          cases hev'
          refine ⟨hblk, ?_⟩
          rw [eventNonempty_applyProp, ho, hblk, hdirty]
          simp
        · have hbf : ps.in_event_block = false := by
            cases hpb : ps.in_event_block
            · rfl
            · exact absurd hpb hblk
          exact absurd (hsome ev hcv).1 (by simp [hbf])

theorem foldl_scanInv (lines : List String) : ∀ ps ss, scanInv ps ss →
    scanInv (lines.foldl parseStep ps) (lines.foldl scanStep ss) := by
  induction lines with
  | nil => intro ps ss h; exact h
  | cons l ls ih => intro ps ss h; exact ih _ _ (parseStep_scanInv ps ss l h)

theorem parseStep_eventsExtend (ps : ParserState) (line : String) :
    List.IsPrefix ps.events (parseStep ps line).events := by
  by_cases hb : pyStrip line = "BEGIN:VEVENT"
  · rw [parseStep_begin ps line hb]
  · by_cases hee : pyStrip line = "END:VEVENT"
    · rw [parseStep_end ps line hb hee]
      show List.IsPrefix ps.events
        (match ps.current_event_data with
         | some ev => if eventNonempty ev then ps.events ++ [ev] else ps.events
         | none => ps.events)
      cases hcv : ps.current_event_data with
      | none => exact List.prefix_refl _
      | some ev =>
        show List.IsPrefix ps.events
          (if eventNonempty ev = true then ps.events ++ [ev] else ps.events)
        cases hne : eventNonempty ev
        · simp only [Bool.false_eq_true, if_false]
          exact List.prefix_refl _
        · simp only [if_true]
          exact List.prefix_append _ _
    · cases hcv : ps.current_event_data with
      | none =>
        rw [parseStep_prop_none ps line hb hee hcv]
      | some ev =>
        by_cases hblk : ps.in_event_block = true
        · rw [parseStep_prop_some ps line ev hb hee hcv hblk]
        · have hbf : ps.in_event_block = false := by
            cases hpb : ps.in_event_block
            · rfl
            · exact absurd hpb hblk
          rw [parseStep_prop_notin ps line hb hee hbf]

theorem foldl_eventsExtend (lines : List String) :
    ∀ ps : ParserState, List.IsPrefix ps.events ((lines.foldl parseStep ps).events) := by
  induction lines with
  | nil => intro ps; exact List.prefix_refl _
  | cons l ls ih =>
    intro ps
    exact (parseStep_eventsExtend ps l).trans (ih (parseStep ps l))

theorem parseStep_timesOk (ps : ParserState) (line : String) (h : stateTimesOk ps) :
    stateTimesOk (parseStep ps line) := by
  obtain ⟨hev, hcur⟩ := h
  by_cases hb : pyStrip line = "BEGIN:VEVENT"
  · rw [parseStep_begin ps line hb]
    refine ⟨hev, ?_⟩
    intro ev hev'
    cases hev'
    exact ⟨fun s hs => Option.noConfusion hs, fun s hs => Option.noConfusion hs⟩
  · by_cases hee : pyStrip line = "END:VEVENT"
    · rw [parseStep_end ps line hb hee]
      refine ⟨?_, fun ev hev' => Option.noConfusion hev'⟩
      show ∀ ev ∈ (match ps.current_event_data with
         | some ev => if eventNonempty ev then ps.events ++ [ev] else ps.events
         | none => ps.events), eventTimesOk ev
      cases hcv : ps.current_event_data with
      | none => exact hev
      | some evc =>
        show ∀ ev ∈ (if eventNonempty evc = true then ps.events ++ [evc] else ps.events),
          eventTimesOk ev
        cases hne : eventNonempty evc
        · simp only [Bool.false_eq_true, if_false]
          exact hev
        · simp only [if_true]
          intro ev hmem
          rcases List.mem_append.mp hmem with hm | hm
          · exact hev ev hm
          · rw [List.mem_singleton.mp hm]
            exact hcur evc hcv
    · cases hcv : ps.current_event_data with
      | none =>
        rw [parseStep_prop_none ps line hb hee hcv]
        exact ⟨hev, hcur⟩
      | some ev =>
        by_cases hblk : ps.in_event_block = true
        · rw [parseStep_prop_some ps line ev hb hee hcv hblk]
          refine ⟨hev, ?_⟩
          intro ev' hev'
          cases hev'
          exact applyProp_timesOk ev _ _ (hcur ev hcv)
        · have hbf : ps.in_event_block = false := by
            cases hpb : ps.in_event_block
            · rfl
            · exact absurd hpb hblk
          rw [parseStep_prop_notin ps line hb hee hbf]
          exact ⟨hev, hcur⟩

theorem foldl_timesOk (lines : List String) : ∀ ps, stateTimesOk ps →
    stateTimesOk (lines.foldl parseStep ps) := by
  induction lines with
  | nil => intro ps h; exact h
  | cons l ls ih => intro ps h; exact ih _ (parseStep_timesOk ps l h)

theorem parseStep_isSome (ps : ParserState) (line : String)
    (h : ps.current_event_data.isSome = ps.in_event_block) :
    (parseStep ps line).current_event_data.isSome = (parseStep ps line).in_event_block := by
  by_cases hb : pyStrip line = "BEGIN:VEVENT"
  · rw [parseStep_begin ps line hb]
    rfl
  · by_cases hee : pyStrip line = "END:VEVENT"
    · rw [parseStep_end ps line hb hee]
      rfl
    · cases hcv : ps.current_event_data with
      | none =>
        rw [parseStep_prop_none ps line hb hee hcv]
        exact h
      | some ev =>
        by_cases hblk : ps.in_event_block = true
        · rw [parseStep_prop_some ps line ev hb hee hcv hblk]
          exact hblk.symm
        · have hbf : ps.in_event_block = false := by
            cases hpb : ps.in_event_block
            · rfl
            · exact absurd hpb hblk
          rw [parseStep_prop_notin ps line hb hee hbf]
          exact h

theorem foldl_isSome (lines : List String) : ∀ ps : ParserState,
    ps.current_event_data.isSome = ps.in_event_block →
    ((lines.foldl parseStep ps).current_event_data.isSome
      = (lines.foldl parseStep ps).in_event_block) := by
  induction lines with
  | nil => intro ps h; exact h
  | cons l ls ih => intro ps h; exact ih _ (parseStep_isSome ps l h)

/-- C1 counterexample: the block `BEGIN:VEVENT`/`END:VEVENT` with no property
lines is one matched pair, yet the parser appends nothing — the Python
truthiness test `if current_event_data:` rejects the empty dict. -/
theorem claim1_counterexample :
    (parse_ics_to_raw "BEGIN:VEVENT\nEND:VEVENT").events = []
  ∧ specMatchedPairs "BEGIN:VEVENT\nEND:VEVENT" = 1
  ∧ (parse_ics_to_raw "BEGIN:VEVENT\nEND:VEVENT").events.length
      ≠ specMatchedPairs "BEGIN:VEVENT\nEND:VEVENT" := by
  refine ⟨by decide, by decide, by decide⟩

/-- C1 (amended): the number of parsed events equals the number of matched
BEGIN/END pairs whose block stored at least one recognized property line
(blocks with no recognized property line produce an empty accumulator, which
the truthiness test drops); events are appended in document order — folding
further lines only extends the event list. -/
theorem claim1_matched_pairs :
    (∀ text, (parse_ics_to_raw text).events.length = specMatchedNonemptyPairs text)
  ∧ (∀ (ps : ParserState) (lines : List String),
      List.IsPrefix ps.events ((lines.foldl parseStep ps).events)) := by
  constructor
  · intro text
    have h := foldl_scanInv (pySplitlines text) initState ⟨false, false, 0⟩
      ⟨rfl, rfl, fun _ => rfl, fun ev hev => Option.noConfusion hev⟩
    exact h.1.symm
  · intro ps lines
    exact foldl_eventsExtend lines ps

/-- C2 counterexample: a block whose DTSTART parses and which has no RRULE
line yields an event with no `days` key at all — not `days == [0]`; the
anchor-weekday default lives inside `parse_rrule_to_raw`, which is only
invoked on an RRULE line. -/
theorem claim2_counterexample :
    (parse_ics_to_raw "BEGIN:VEVENT\nDTSTART:20240101T090000\nEND:VEVENT").events
      = [{ start_time := some "09:00:00" }]
  ∧ ((parse_ics_to_raw "BEGIN:VEVENT\nDTSTART:20240101T090000\nEND:VEVENT").events.map
        (fun ev => ev.days)) ≠ [some [0]] := by
  refine ⟨by decide, by decide⟩

/-- C2 (amended): a VEVENT block with a parsed DTSTART and no RRULE line
leaves the `days` key unset (processing any line whose key is not `RRULE`
never sets `days`), so the event's effective day set is empty; the
DTSTART-weekday default applies only when an RRULE line is present — with
`RRULE:FREQ=WEEKLY` after the same DTSTART, `days == [0]` (the Monday
anchor). -/
theorem claim2_no_rrule_days :
    (∀ (ps : ParserState) (rawLine : String),
      lineKey rawLine ≠ some "RRULE" →
      (∀ ev, ps.current_event_data = some ev → ev.days = none) →
      ∀ ev', (parseStep ps rawLine).current_event_data = some ev' → ev'.days = none)
  ∧ (parse_ics_to_raw "BEGIN:VEVENT\nDTSTART:20240101T090000\nEND:VEVENT").events
      = [{ start_time := some "09:00:00" }]
  ∧ (parse_ics_to_raw
        "BEGIN:VEVENT\nDTSTART:20240101T090000\nRRULE:FREQ=WEEKLY\nEND:VEVENT").events
      = [{ start_time := some "09:00:00", days := some [0] }] := by
  refine ⟨?_, by decide, by decide⟩
  intro ps rawLine hk hdays ev' hev'
  by_cases hb : pyStrip rawLine = "BEGIN:VEVENT"
  · rw [parseStep_begin ps rawLine hb] at hev'
    cases hev'
    rfl
  · by_cases hee : pyStrip rawLine = "END:VEVENT"
    · rw [parseStep_end ps rawLine hb hee] at hev'
      exact Option.noConfusion hev'
    · cases hcv : ps.current_event_data with
      | none =>
        rw [parseStep_prop_none ps rawLine hb hee hcv] at hev'
        exact hdays ev' hev'
      | some ev =>
        by_cases hblk : ps.in_event_block = true
        · rw [parseStep_prop_some ps rawLine ev hb hee hcv hblk] at hev'
          cases hev'
          rw [applyProp_days]
          · exact hdays ev hcv
          · exact hk
        · have hbf : ps.in_event_block = false := by
            cases hpb : ps.in_event_block
            · rfl
            · exact absurd hpb hblk
          rw [parseStep_prop_notin ps rawLine hb hee hbf] at hev'
          exact hdays ev' hev'

/-- C2 witness: the days-preservation part of the amended theorem applied to
a concrete in-block state and a `SUMMARY` line. -/
theorem claim2_witness : ({ summary := some "x" } : RawEvent).days = none :=
  claim2_no_rrule_days.1 ⟨[], some {}, none, true⟩ "SUMMARY:x" (by decide)
    (fun ev h => by cases h; rfl) { summary := some "x" } (by decide)

/-- C7: a `KEY:VALUE` line outside any VEVENT block is never attributed to an
event: with the block flag clear and no accumulator, any line other than
`BEGIN:VEVENT` leaves the parser state completely unchanged; and along any
run from the initial state, the accumulator exists exactly while the block
flag is set. -/
theorem claim7_outside_containment :
    (∀ (ps : ParserState) (rawLine : String),
      ps.in_event_block = false → ps.current_event_data = none →
      pyStrip rawLine ≠ "BEGIN:VEVENT" → parseStep ps rawLine = ps)
  ∧ (∀ lines : List String,
      ((lines.foldl parseStep initState).current_event_data.isSome
        = (lines.foldl parseStep initState).in_event_block)) := by
  constructor
  · intro ps rawLine hblk hcur hb
    by_cases hee : pyStrip rawLine = "END:VEVENT"
    · rw [parseStep_end ps rawLine hb hee]
      cases ps
      simp_all
    · exact parseStep_prop_none ps rawLine hb hee hcur
  · intro lines
    exact foldl_isSome lines initState rfl

/-- C7 witness: a stray `SUMMARY` line processed outside any block leaves the
initial state unchanged. -/
theorem claim7_witness : parseStep initState "SUMMARY:stray" = initState :=
  claim7_outside_containment.1 initState "SUMMARY:stray" rfl rfl (by decide)

/-- C10: every `start_time`/`end_time` the parser stores is the ISO
serialization of a valid time-of-day obtained from a successful datetime
parse, so `time.fromisoformat` on it succeeds; hence expansion's initial
time-string parsing cannot fail on parser-produced events carrying both
keys. -/
theorem claim10_parser_time_strings :
    ∀ (text : String) (ev : RawEvent), ev ∈ (parse_ics_to_raw text).events →
      (∀ s, ev.start_time = some s →
        ∃ t : Time, t.isValid ∧ s = t.isoformat ∧ time_fromisoformat s = some t)
    ∧ (∀ s, ev.end_time = some s →
        ∃ t : Time, t.isValid ∧ s = t.isoformat ∧ time_fromisoformat s = some t) := by
  intro text ev hmem
  have hinit : stateTimesOk initState :=
    ⟨fun ev h => absurd h (List.not_mem_nil ev), fun ev h => Option.noConfusion h⟩
  have hinv := foldl_timesOk (pySplitlines text) initState hinit
  have hok := hinv.1 ev hmem
  constructor
  · intro s hs
    obtain ⟨t, hval, hiso⟩ := hok.1 s hs
    exact ⟨t, hval, hiso, by rw [hiso]; exact time_fromisoformat_isoformat t hval⟩
  · intro s hs
    obtain ⟨t, hval, hiso⟩ := hok.2 s hs
    exact ⟨t, hval, hiso, by rw [hiso]; exact time_fromisoformat_isoformat t hval⟩

/-- C10 witness: the invariant applied to a concrete parsed event. -/
theorem claim10_witness :
    ∃ t : Time, t.isValid ∧ "09:00:00" = t.isoformat
      ∧ time_fromisoformat "09:00:00" = some t :=
  (claim10_parser_time_strings
      "BEGIN:VEVENT\nDTSTART:20240101T090000\nDTEND:20240101T100000\nEND:VEVENT"
      { start_time := some "09:00:00", end_time := some "10:00:00" }
      (by decide)).1 "09:00:00" rfl

end EasyCal
